import Mathlib

/-!
Shallow embedding of `asyncdef.emitter.emitter` (Python) in Lean 4.

The Python module defines a class `Emitter` with a listener registry
(`self._events : defaultdict(list)`), two deferred-mutation queues
(`self._removals`, `self._additions`), and an emission stack
(`self._emitting`).  Listeners are arbitrary Python callables; a one-shot
listener is stored wrapped in the `_Once` container.

Because the behaviour under reentrant `emit` depends on Python *object
identity* of the per-event listener lists (the `for` loop in `emit` iterates
over the list object captured at loop entry, while
`self._events[event] = list(filter(bool, ...))` rebinds the mapping to a
fresh list object), the embedding models the lists through an explicit heap:
`events` maps an event name to a heap reference, and the heap maps a
reference to the current contents of that list object.

Listeners are modelled as programs in a small action language (`Act`),
indexed by natural-number function identities via a program table
`tbl : Nat → List Act`.  The interpreter is fuel-based; running out of fuel
yields the distinguished outcome `Res.stuck`, which no theorem below treats
as a real behaviour.
-/

namespace AsyncEmitter

/-- Python exceptions that occur in the emitter's executions: `TypeError`
(calling a `None` tombstone), `IndexError` (out-of-range list assignment in
the `finally` clause), and user-defined exceptions raised by listeners. -/
inductive Exc where
  | typeError : Exc
  | indexError : Exc
  | user : Nat → Exc
deriving Repr, DecidableEq

/-- A Python callable object as stored in the registry: either a raw
function (identified by a `Nat`) or a `_Once` wrapper around one. -/
inductive Cell where
  | fnV : Nat → Cell
  | onceV : Nat → Cell
deriving Repr, DecidableEq

/-- Values passed as arguments to listeners (and stored in traces). -/
inductive Val where
  | vStr : String → Val
  | vNat : Nat → Val
  | vExc : Exc → Val
  | vCell : Cell → Val
  | vNone : Val
deriving Repr, DecidableEq

/-- Actions a listener program can perform.  `ifFirst t e` branches on
whether the current invocation is the listener's first ever invocation,
letting us express listeners such as "re-emit the event only the first
time" without nontermination. -/
inductive Act where
  | raiseE : Exc → Act
  | emitA : String → List Val → Act
  | onA : String → Nat → Act
  | onceA : String → Nat → Act
  | removeA : String → Nat → Act
  | snapA : String → Act
  | ifFirst : List Act → List Act → Act
deriving Repr

/-- Observable trace events: `callT f args` records an invocation of the
underlying function `f` with the given arguments; `snapT ev n` records that
a running listener observed `listeners_count ev = n` via `snapA`. -/
inductive TraceEv where
  | callT : Nat → List Val → TraceEv
  | snapT : String → Nat → TraceEv
deriving Repr, DecidableEq

/-- The state of one `Emitter` instance plus the listener world.

* `heap` — the Python list objects; a reference is an index into `heap`.
* `events` — `self._events`: event name ↦ heap reference of its list.
* `removals` — `self._removals`: event name ↦ queued raw listeners.
* `additions` — `self._additions`: event name ↦ queued cells.
* `emitting` — `self._emitting`: the emission stack (list of event names).
* `trace` — invocation/observation log (not part of the Python state).
* `counts` — per-function invocation counters driving `Act.ifFirst`. -/
structure EState where
  heap : List (List (Option Cell))
  events : List (String × Nat)
  removals : List (String × List Nat)
  additions : List (String × List Cell)
  emitting : List String
  trace : List TraceEv
  counts : List (Nat × Nat)
deriving Repr, DecidableEq

/-- Outcome of running a piece of emitter code: normal return, a raised
exception, or out of interpreter fuel. -/
inductive Res (α : Type) where
  | ok : α → Res α
  | exn : Exc → Res α
  | stuck : Res α
deriving Repr, DecidableEq

/-- Lookup in an association list (first match wins). -/
def alookup {α : Type} : List (String × α) → String → Option α
  | [], _ => none
  | (k, v) :: rest, key => if k = key then some v else alookup rest key

/-- Update (or insert at the end) a binding in an association list. -/
def aset {α : Type} : List (String × α) → String → α → List (String × α)
  | [], key, v => [(key, v)]
  | (k, w) :: rest, key, v =>
      if k = key then (k, v) :: rest else (k, w) :: aset rest key v

/-- Delete a binding from an association list (`dict.pop(key, default)`). -/
def adrop {α : Type} : List (String × α) → String → List (String × α)
  | [], _ => []
  | (k, w) :: rest, key => if k = key then rest else (k, w) :: adrop rest key

/-- Contents of the list object at heap reference `r`. -/
def heapGet (st : EState) (r : Nat) : List (Option Cell) :=
  st.heap.getD r []

/-- Overwrite the list object at heap reference `r`. -/
def heapSet (st : EState) (r : Nat) (lst : List (Option Cell)) : EState :=
  { st with heap := st.heap.set r lst }

/-- `self._events[event]` on a `defaultdict(list)`: return the reference,
allocating a fresh empty list object when the key is missing. -/
def getRef (st : EState) (ev : String) : Nat × EState :=
  match alookup st.events ev with
  | some r => (r, st)
  | none =>
      (st.heap.length,
        { st with
            heap := st.heap ++ [[]],
            events := aset st.events ev st.heap.length })

/-- Truthiness of `self._events.get(event, None)`: the key exists and its
list object is non-empty. -/
def truthyEv (st : EState) (ev : String) : Bool :=
  match alookup st.events ev with
  | none => false
  | some r => !(heapGet st r).isEmpty

/-- `listeners_count(event)`: `len(self._events.get(event, ()))`. -/
def listeners_count (st : EState) (ev : String) : Nat :=
  match alookup st.events ev with
  | none => 0
  | some r => (heapGet st r).length

/-- Push an event name onto the emission stack (`self._emitting.append`). -/
def pushEm (st : EState) (ev : String) : EState :=
  { st with emitting := st.emitting ++ [ev] }

/-- Pop the last element of the emission stack (`self._emitting.pop()`). -/
def popEm (st : EState) : EState :=
  { st with emitting := st.emitting.dropLast }

/-- Append a cell to the event's list object
(`self._events[event].append(listener)`), mutating it in place. -/
def appendL (st : EState) (ev : String) (c : Cell) : EState :=
  let (r, st1) := getRef st ev
  heapSet st1 r (heapGet st1 r ++ [some c])

/-- `self._events[event].pop(offset)` for a valid offset. -/
def popAt (st : EState) (ev : String) (off : Nat) : EState :=
  let (r, st1) := getRef st ev
  heapSet st1 r ((heapGet st1 r).eraseIdx off)

/-- The `finally` clause's tombstone write
`self._events[event][offset] = None`.  The mapping is re-read at write time,
so this may target a different (rebound) list object than the one being
iterated; an out-of-range offset raises `IndexError`. -/
def tombstone (st : EState) (ev : String) (off : Nat) :
    EState × Option Exc :=
  let (r, st1) := getRef st ev
  let lst := heapGet st1 r
  if off < lst.length then (heapSet st1 r (lst.set off none), none)
  else (st1, some Exc.indexError)

/-- Whether a registry entry is a `_Once` instance. -/
def isOnceCell : Option Cell → Bool
  | some (Cell.onceV _) => true
  | _ => false

/-- The `finally` clause of the `emit` loop body: tombstone the slot when
the invoked entry was a `_Once`, otherwise do nothing. -/
def doFin (st : EState) (ev : String) (off : Nat) (entry : Option Cell) :
    EState × Option Exc :=
  if isOnceCell entry then tombstone st ev off else (st, none)

/-- The post-loop filter
`self._events[event] = list(filter(bool, self._events[event]))`: build the
tombstone-free list as a *fresh* list object and rebind the mapping to it. -/
def filterStep (st : EState) (ev : String) : EState :=
  let (r, st1) := getRef st ev
  let kept := (heapGet st1 r).filter (fun e => e.isSome)
  { st1 with
      heap := st1.heap ++ [kept],
      events := aset st1.events ev st1.heap.length }

/-- Does a raw listener `f` match a registry entry, unwrapping `_Once`
(`listener == _listener` over the unwrapping generator in `_remove`)?
A `None` tombstone never matches. -/
def matchesCell (f : Nat) : Option Cell → Bool
  | some (Cell.fnV g) => f == g
  | some (Cell.onceV g) => f == g
  | none => false

/-- Queue a deferred addition (`self._additions[event].append(...)`). -/
def queueAdd (st : EState) (ev : String) (c : Cell) : EState :=
  { st with
      additions :=
        aset st.additions ev ((alookup st.additions ev).getD [] ++ [c]) }

/-- Queue a deferred removal (`self._removals[event].append(listener)`). -/
def queueRem (st : EState) (ev : String) (f : Nat) : EState :=
  { st with
      removals :=
        aset st.removals ev ((alookup st.removals ev).getD [] ++ [f]) }

/-- `self._removals.pop(event, ())`. -/
def popRemQ (st : EState) (ev : String) : List Nat × EState :=
  ((alookup st.removals ev).getD [],
    { st with removals := adrop st.removals ev })

/-- `self._additions.pop(event, ())`. -/
def popAddQ (st : EState) (ev : String) : List Cell × EState :=
  ((alookup st.additions ev).getD [],
    { st with additions := adrop st.additions ev })

/-- Current invocation count of function `f`. -/
def countGet (st : EState) (f : Nat) : Nat :=
  match st.counts.find? (fun p => p.1 == f) with
  | some p => p.2
  | none => 0

/-- Record an invocation of function `f` with arguments `args`: bump its
counter and append a `callT` trace event. -/
def bump (st : EState) (f : Nat) (args : List Val) : EState :=
  { st with
      trace := st.trace ++ [TraceEv.callT f args],
      counts :=
        match st.counts.find? (fun p => p.1 == f) with
        | some _ =>
            st.counts.map (fun p => if p.1 == f then (p.1, p.2 + 1) else p)
        | none => st.counts ++ [(f, 1)] }

/-- A program table assigning each function identity its listener body. -/
def Table : Type := Nat → List Act

/-- The pieces of emitter code the interpreter can execute.  A single sum
type lets the whole mutually recursive interpreter be one structurally
recursive function on fuel (so that its equations hold definitionally). -/
inductive Call where
  | emitC : String → List Val → Call
  | loopC : String → List Val → Nat → Nat → Call
  | callC : Option Cell → List Val → Call
  | progC : Nat → List Act → Call
  | onPubC : String → Cell → Call
  | removePubC : String → Nat → Call
  | onImmC : String → Cell → Call
  | removeImmC : String → Nat → Call
  | flushRemC : String → List Nat → Call
  | flushAddC : String → List Cell → Call

/-- The interpreter.  Each case is a direct transcription of the
corresponding piece of `emitter.py`:

* `emitC ev args` — `Emitter.emit`: the truthiness guard, the push onto
  the emission stack, the listener loop (`loopC`), then the tombstone
  filter, the pop, and the conditional flush of the deferred queues.
* `loopC ev args r i` — the `for offset, listener in
  enumerate(self._events[event])` loop, iterating the captured list
  *object* `r` live from index `i`, with the `try/except/finally` body:
  exceptions are re-raised when `ev` is `"error"` or no `"error"` listener
  exists, otherwise routed into a nested `emit("error", ev, exc)`; the
  `finally` clause tombstones the slot of a `_Once` entry (an exception
  raised there replaces the in-flight one, as in Python).
* `callC entry args` — invoking one registry entry (`None` raises
  `TypeError`).
* `progC self acts` — running a listener program.
* `onPubC` / `removePubC` — `Emitter.on`/`once` and `Emitter.remove`:
  immediate when the event is not on the emission stack, queued otherwise.
* `onImmC` — `Emitter._on`; `removeImmC` — `Emitter._remove`.
* `flushRemC` / `flushAddC` — the two flush loops at the end of `emit`.

The boolean in the result is meaningful only for `emitC` (the return value
of `emit`); all other calls return `true` on success. -/
def exec (tbl : Table) : Nat → EState → Call → EState × Res Bool
  | 0, st, _ => (st, Res.stuck)
  | fuel + 1, st, Call.emitC ev args =>
      if truthyEv st ev then
        let st1 := pushEm st ev
        let rs := getRef st1 ev
        match exec tbl fuel rs.2 (Call.loopC ev args rs.1 0) with
        | (st3, Res.exn e) => (st3, Res.exn e)
        | (st3, Res.stuck) => (st3, Res.stuck)
        | (st3, Res.ok _) =>
            let st4 := filterStep st3 ev
            let st5 := popEm st4
            if ev ∈ st5.emitting then (st5, Res.ok true)
            else
              let rq := popRemQ st5 ev
              let aq := popAddQ rq.2 ev
              match exec tbl fuel aq.2 (Call.flushRemC ev rq.1) with
              | (st8, Res.exn e) => (st8, Res.exn e)
              | (st8, Res.stuck) => (st8, Res.stuck)
              | (st8, Res.ok _) =>
                  match exec tbl fuel st8 (Call.flushAddC ev aq.1) with
                  | (st9, Res.exn e) => (st9, Res.exn e)
                  | (st9, Res.stuck) => (st9, Res.stuck)
                  | (st9, Res.ok _) => (st9, Res.ok true)
      else (st, Res.ok false)
  | fuel + 1, st, Call.loopC ev args r i =>
      let lst := heapGet st r
      if i < lst.length then
        let entry := lst.getD i none
        match exec tbl fuel st (Call.callC entry args) with
        | (st1, Res.stuck) => (st1, Res.stuck)
        | (st1, Res.ok _) =>
            let fin := doFin st1 ev i entry
            match fin.2 with
            | some e => (fin.1, Res.exn e)
            | none => exec tbl fuel fin.1 (Call.loopC ev args r (i + 1))
        | (st1, Res.exn e) =>
            if ev = "error" ∨ ¬ truthyEv st1 "error" then
              let fin := doFin st1 ev i entry
              (fin.1, Res.exn (fin.2.getD e))
            else
              match exec tbl fuel st1
                  (Call.emitC "error" [Val.vStr ev, Val.vExc e]) with
              | (st2, Res.stuck) => (st2, Res.stuck)
              | (st2, Res.ok _) =>
                  let fin := doFin st2 ev i entry
                  match fin.2 with
                  | some e3 => (fin.1, Res.exn e3)
                  | none => exec tbl fuel fin.1 (Call.loopC ev args r (i + 1))
              | (st2, Res.exn e2) =>
                  let fin := doFin st2 ev i entry
                  (fin.1, Res.exn (fin.2.getD e2))
      else (st, Res.ok true)
  | fuel + 1, st, Call.callC entry args =>
      match entry with
      | none => (st, Res.exn Exc.typeError)
      | some (Cell.fnV f) => exec tbl fuel (bump st f args) (Call.progC f (tbl f))
      | some (Cell.onceV f) => exec tbl fuel (bump st f args) (Call.progC f (tbl f))
  | fuel + 1, st, Call.progC self acts =>
      match acts with
      | [] => (st, Res.ok true)
      | Act.raiseE e :: _ => (st, Res.exn e)
      | Act.emitA ev args :: rest =>
          match exec tbl fuel st (Call.emitC ev args) with
          | (st1, Res.ok _) => exec tbl fuel st1 (Call.progC self rest)
          | (st1, Res.exn e) => (st1, Res.exn e)
          | (st1, Res.stuck) => (st1, Res.stuck)
      | Act.onA ev f :: rest =>
          match exec tbl fuel st (Call.onPubC ev (Cell.fnV f)) with
          | (st1, Res.ok _) => exec tbl fuel st1 (Call.progC self rest)
          | (st1, Res.exn e) => (st1, Res.exn e)
          | (st1, Res.stuck) => (st1, Res.stuck)
      | Act.onceA ev f :: rest =>
          match exec tbl fuel st (Call.onPubC ev (Cell.onceV f)) with
          | (st1, Res.ok _) => exec tbl fuel st1 (Call.progC self rest)
          | (st1, Res.exn e) => (st1, Res.exn e)
          | (st1, Res.stuck) => (st1, Res.stuck)
      | Act.removeA ev f :: rest =>
          match exec tbl fuel st (Call.removePubC ev f) with
          | (st1, Res.ok _) => exec tbl fuel st1 (Call.progC self rest)
          | (st1, Res.exn e) => (st1, Res.exn e)
          | (st1, Res.stuck) => (st1, Res.stuck)
      | Act.snapA ev :: rest =>
          exec tbl fuel
            { st with
                trace := st.trace ++ [TraceEv.snapT ev (listeners_count st ev)] }
            (Call.progC self rest)
      | Act.ifFirst thn els :: rest =>
          exec tbl fuel st
            (Call.progC self ((if countGet st self = 1 then thn else els) ++ rest))
  | fuel + 1, st, Call.onPubC ev c =>
      if ev ∈ st.emitting then (queueAdd st ev c, Res.ok true)
      else exec tbl fuel st (Call.onImmC ev c)
  | fuel + 1, st, Call.removePubC ev f =>
      if ev ∈ st.emitting then (queueRem st ev f, Res.ok true)
      else exec tbl fuel st (Call.removeImmC ev f)
  | fuel + 1, st, Call.onImmC ev c =>
      match exec tbl fuel st (Call.emitC "new_listener" [Val.vStr ev, Val.vCell c]) with
      | (st1, Res.ok _) => (appendL st1 ev c, Res.ok true)
      | (st1, Res.exn e) => (st1, Res.exn e)
      | (st1, Res.stuck) => (st1, Res.stuck)
  | fuel + 1, st, Call.removeImmC ev f =>
      let lst :=
        match alookup st.events ev with
        | none => []
        | some r => heapGet st r
      match lst.findIdx? (matchesCell f) with
      | none => (st, Res.ok true)
      | some off =>
          let st1 := popAt st ev off
          match exec tbl fuel st1
              (Call.emitC "remove_listener" [Val.vStr ev, Val.vCell (Cell.fnV f)]) with
          | (st2, Res.ok _) => (st2, Res.ok true)
          | (st2, Res.exn e) => (st2, Res.exn e)
          | (st2, Res.stuck) => (st2, Res.stuck)
  | fuel + 1, st, Call.flushRemC ev fs =>
      match fs with
      | [] => (st, Res.ok true)
      | f :: rest =>
          match exec tbl fuel st (Call.removeImmC ev f) with
          | (st1, Res.ok _) => exec tbl fuel st1 (Call.flushRemC ev rest)
          | (st1, Res.exn e) => (st1, Res.exn e)
          | (st1, Res.stuck) => (st1, Res.stuck)
  | fuel + 1, st, Call.flushAddC ev cs =>
      match cs with
      | [] => (st, Res.ok true)
      | c :: rest =>
          match exec tbl fuel st (Call.onImmC ev c) with
          | (st1, Res.ok _) => exec tbl fuel st1 (Call.flushAddC ev rest)
          | (st1, Res.exn e) => (st1, Res.exn e)
          | (st1, Res.stuck) => (st1, Res.stuck)

/-- `Emitter.emit(self, event, *args)`: final state plus outcome. -/
def emit (tbl : Table) (fuel : Nat) (st : EState) (ev : String)
    (args : List Val) : EState × Res Bool :=
  exec tbl fuel st (Call.emitC ev args)

/-- The listener loop of `emit` over list object `r`, from index `i`. -/
def emitLoop (tbl : Table) (fuel : Nat) (st : EState) (ev : String)
    (args : List Val) (r i : Nat) : EState × Res Bool :=
  exec tbl fuel st (Call.loopC ev args r i)

/-- Invoke one registry entry with the given arguments. -/
def callEntry (tbl : Table) (fuel : Nat) (st : EState)
    (entry : Option Cell) (args : List Val) : EState × Res Bool :=
  exec tbl fuel st (Call.callC entry args)

/-- Run a listener program under identity `self`. -/
def runProg (tbl : Table) (fuel : Nat) (st : EState) (self : Nat)
    (acts : List Act) : EState × Res Bool :=
  exec tbl fuel st (Call.progC self acts)

/-- `Emitter.on` / `Emitter.once` (the cell decides which). -/
def onPub (tbl : Table) (fuel : Nat) (st : EState) (ev : String)
    (c : Cell) : EState × Res Bool :=
  exec tbl fuel st (Call.onPubC ev c)

/-- `Emitter.remove`. -/
def removePub (tbl : Table) (fuel : Nat) (st : EState) (ev : String)
    (f : Nat) : EState × Res Bool :=
  exec tbl fuel st (Call.removePubC ev f)

/-- `Emitter._on`. -/
def onImm (tbl : Table) (fuel : Nat) (st : EState) (ev : String)
    (c : Cell) : EState × Res Bool :=
  exec tbl fuel st (Call.onImmC ev c)

/-- `Emitter._remove`. -/
def removeImm (tbl : Table) (fuel : Nat) (st : EState) (ev : String)
    (f : Nat) : EState × Res Bool :=
  exec tbl fuel st (Call.removeImmC ev f)

/-- The flush of queued removals at the end of `emit`. -/
def flushRem (tbl : Table) (fuel : Nat) (st : EState) (ev : String)
    (fs : List Nat) : EState × Res Bool :=
  exec tbl fuel st (Call.flushRemC ev fs)

/-- The flush of queued additions at the end of `emit`. -/
def flushAdd (tbl : Table) (fuel : Nat) (st : EState) (ev : String)
    (cs : List Cell) : EState × Res Bool :=
  exec tbl fuel st (Call.flushAddC ev cs)

/-- `Emitter.on(event, listener)` (named `onEv` because `on` is reserved
notation in Lean). -/
def onEv (tbl : Table) (fuel : Nat) (st : EState) (ev : String) (f : Nat) :
    EState × Res Bool :=
  onPub tbl fuel st ev (Cell.fnV f)

/-- `Emitter.once(event, listener)`: like `on` but registering (or
queueing) the listener wrapped in a `_Once` container. -/
def once (tbl : Table) (fuel : Nat) (st : EState) (ev : String) (f : Nat) :
    EState × Res Bool :=
  onPub tbl fuel st ev (Cell.onceV f)

/-- `Emitter.remove(event, listener)`. -/
def remove (tbl : Table) (fuel : Nat) (st : EState) (ev : String)
    (f : Nat) : EState × Res Bool :=
  removePub tbl fuel st ev f

/-- The generator object returned by `Emitter.listeners(event)`.  The
outermost iterable `self._events.get(event, ())` is evaluated when the
generator expression is created, capturing the list object's reference (or
nothing when the key is absent); iteration is lazy and single-pass. -/
structure Gen where
  src : Option Nat
  i : Nat
  done : Bool
deriving Repr, DecidableEq

/-- `Emitter.listeners(event)`: create the generator. -/
def listeners (st : EState) (ev : String) : Gen :=
  ⟨alookup st.events ev, 0, false⟩

/-- What one yielded element looks like:
`listener.func if isinstance(listener, _Once) else listener`. -/
def unwrapEntry : Option Cell → Val
  | some (Cell.fnV f) => Val.vCell (Cell.fnV f)
  | some (Cell.onceV f) => Val.vCell (Cell.fnV f)
  | none => Val.vNone

/-- One `next()` step of the generator against the current state: an
exhausted generator stays exhausted; otherwise the captured list object's
current contents are consulted at the cursor. -/
def genNext (st : EState) (g : Gen) : Option Val × Gen :=
  if g.done then (none, g)
  else
    match g.src with
    | none => (none, { g with done := true })
    | some r =>
        let lst := heapGet st r
        if g.i < lst.length then
          (some (unwrapEntry (lst.getD g.i none)), { g with i := g.i + 1 })
        else (none, { g with done := true })

/-- Iterate the generator to exhaustion (bounded by fuel), collecting the
yielded values, and return the generator's final cursor state. -/
def genDrain (st : EState) : Nat → Gen → List Val × Gen
  | 0, g => ([], g)
  | fuel + 1, g =>
      match genNext st g with
      | (none, g1) => ([], g1)
      | (some v, g1) =>
          let rest := genDrain st fuel g1
          (v :: rest.1, rest.2)

/-- A freshly constructed `Emitter`: empty registry, queues and stack. -/
def emptyState : EState := ⟨[], [], [], [], [], [], []⟩

/-- Run a straight-line driver script (caller-side API calls) against a
state; the dummy identity `1000000` is never a registered listener. -/
def runScript (tbl : Table) (fuel : Nat) (st : EState) (acts : List Act) :
    EState × Res Bool :=
  runProg tbl fuel st 1000000 acts


/-- The current registry entry list of an event
(`self._events.get(event, ())`). -/
def regList (st : EState) (ev : String) : List (Option Cell) :=
  match alookup st.events ev with
  | none => []
  | some r => heapGet st r

/-- How many invocations of function `f` a trace records. -/
def countCalls (tr : List TraceEv) (f : Nat) : Nat :=
  (tr.filter (fun t =>
    match t with
    | TraceEv.callT g _ => g == f
    | TraceEv.snapT _ _ => false)).length

/-- The event's registry reference (when present) points inside the heap.
Every state reachable from `emptyState` satisfies this for every event. -/
def evRefOk (st : EState) (ev : String) : Prop :=
  ∀ r, alookup st.events ev = some r → r < st.heap.length

/-- Table for the fire-once reentrancy scenario: function `0` re-emits
`"e"` on its first invocation only. -/
def tblC1 : Table := fun f =>
  if f = 0 then [Act.ifFirst [Act.emitA "e" []] []] else []

/-- Table with only inert listeners (empty programs; invocations are still
recorded in the trace). -/
def tblNil : Table := fun _ => []

/-- Table for the `new_listener`-observer scenarios: function `9` records
`listeners_count("e")` when invoked. -/
def tblC8 : Table := fun f => if f = 9 then [Act.snapA "e"] else []

/-- Table for the deferred-addition scenario: listener `1` observes the
count for `"e"`, registers listener `2` for `"e"` mid-dispatch, and
observes the count again; `9` is the `new_listener` observer. -/
def tblC3 : Table := fun f =>
  if f = 1 then [Act.snapA "e", Act.onA "e" 2, Act.snapA "e"] else []

/-- Table for the flush-order scenario: listener `1` queues a removal of
`2` and additions of `3` and `4` while `"e"` is dispatching; `8` and `9`
are inert `remove_listener` / `new_listener` observers. -/
def tblC4 : Table := fun f =>
  if f = 1 then [Act.removeA "e" 2, Act.onA "e" 3, Act.onA "e" 4] else []

/-- Table for the deferred-`once` scenario: listener `1` registers `5` via
`once("e", 5)` while `"e"` is dispatching. -/
def tblC10 : Table := fun f => if f = 1 then [Act.onceA "e" 5] else []

/-- Table for the aborted-dispatch scenario: listener `3` raises `user 7`
on its first invocation only. -/
def tblC7 : Table := fun f =>
  if f = 3 then [Act.ifFirst [Act.raiseE (Exc.user 7)] []] else []

/-- Table for the error-routing scenarios: `3` raises `user 7`, `4` is an
`error` listener raising `user 9`, `5` is a benign `error` listener. -/
def tblC2 : Table := fun f =>
  if f = 3 then [Act.raiseE (Exc.user 7)]
  else if f = 4 then [Act.raiseE (Exc.user 9)] else []

/-- C1: the claim says a fire-once listener is invoked exactly once even
when dispatch of its event is reentered before the purge.  On the code,
registering function `0` via `once("e", 0)` where `0` re-emits `"e"` on its
first invocation makes `emit("e")` invoke `0` twice (the reentered dispatch
finds the not-yet-tombstoned `_Once` entry) and then crash with
`IndexError` in the `finally` tombstone write (the inner dispatch rebound
the registry to a shorter fresh list).  This theorem evaluates the code at
that failing input. -/
theorem c1_once_reentrant_double_invocation :
    (runScript tblC1 60 emptyState [Act.onceA "e" 0, Act.emitA "e" []]).2 =
      Res.exn Exc.indexError ∧
    countCalls
      (runScript tblC1 60 emptyState
        [Act.onceA "e" 0, Act.emitA "e" []]).1.trace 0 = 2 := by
  decide

/-- C5: `emit` returns `true` iff the registry had a listener entry for the
event at call time.  With no listeners it returns `false` immediately with
the state (registry, queues, emission stack, trace — hence no lifecycle
events) completely unchanged; with listeners, a normal return is always
`true`. -/
theorem c5_emit_return_value :
    (∀ (tbl : Table) (fuel : Nat) (st : EState) (ev : String)
        (args : List Val),
        truthyEv st ev = false →
        emit tbl (fuel + 1) st ev args = (st, Res.ok false)) ∧
    (∀ (tbl : Table) (fuel : Nat) (st : EState) (ev : String)
        (args : List Val) (st' : EState) (b : Bool),
        truthyEv st ev = true →
        emit tbl fuel st ev args = (st', Res.ok b) → b = true) := by
  constructor
  · intro tbl fuel st ev args h
    simp [emit, exec, h]
  · intro tbl fuel st ev args st' b h hrun
    match fuel with
    | 0 =>
        simp [emit, exec] at hrun
    | fuel + 1 =>
        simp only [emit, exec, h, if_true] at hrun
        repeat' split at hrun
        all_goals simp_all

lemma pushEm_emitting (st : EState) (ev : String) :
    (pushEm st ev).emitting = st.emitting ++ [ev] := rfl

lemma popEm_emitting (st : EState) :
    (popEm st).emitting = st.emitting.dropLast := rfl

lemma filterStep_emitting (st : EState) (ev : String) :
    (filterStep st ev).emitting = st.emitting := by
  unfold filterStep getRef
  cases alookup st.events ev <;> rfl

lemma appendL_emitting (st : EState) (ev : String) (c : Cell) :
    (appendL st ev c).emitting = st.emitting := by
  unfold appendL getRef heapSet
  cases alookup st.events ev <;> rfl

lemma popAt_emitting (st : EState) (ev : String) (off : Nat) :
    (popAt st ev off).emitting = st.emitting := by
  unfold popAt getRef heapSet
  cases alookup st.events ev <;> rfl

lemma doFin_emitting (st : EState) (ev : String) (off : Nat)
    (entry : Option Cell) : (doFin st ev off entry).1.emitting = st.emitting := by
  unfold doFin tombstone getRef heapSet
  cases isOnceCell entry <;> simp
  cases alookup st.events ev <;> simp <;> split <;> rfl

lemma doFin_trace (st : EState) (ev : String) (off : Nat)
    (entry : Option Cell) : (doFin st ev off entry).1.trace = st.trace := by
  unfold doFin tombstone getRef heapSet
  cases isOnceCell entry <;> simp
  cases alookup st.events ev <;> simp <;> split <;> rfl

lemma bump_emitting (st : EState) (f : Nat) (args : List Val) :
    (bump st f args).emitting = st.emitting := by
  unfold bump
  cases st.counts.find? (fun p => p.1 == f) <;> rfl

/-- C8: `on(E, L)` outside dispatch first fires `new_listener`
synchronously with `(E, L)` and only then appends `L`, so `new_listener`
observers see the registry without the new listener.  Part 1: `on` outside
dispatch is exactly `_on`.  Part 2: `_on` appends to the registry state
*after* the `new_listener` dispatch returned, i.e. the whole dispatch ran
against the pre-append registry.  Part 3 (observed): with an observer on
`new_listener` that records `listeners_count("e")`, registering listener
`1` for `"e"` logs the observer call with arguments `("e", 1)` followed by
its observation of count `0`, while afterwards the count is `1`. -/
theorem c8_new_listener_before_append :
    (∀ (tbl : Table) (fuel : Nat) (st : EState) (ev : String) (f : Nat),
        ev ∉ st.emitting →
        onEv tbl (fuel + 1) st ev f = onImm tbl fuel st ev (Cell.fnV f)) ∧
    (∀ (tbl : Table) (fuel : Nat) (st st1 : EState) (ev : String) (c : Cell)
        (b : Bool),
        emit tbl fuel st "new_listener" [Val.vStr ev, Val.vCell c] =
          (st1, Res.ok b) →
        onImm tbl (fuel + 1) st ev c = (appendL st1 ev c, Res.ok true)) ∧
    ((runScript tblC8 60 emptyState
        [Act.onA "new_listener" 9, Act.onA "e" 1]).1.trace =
      [TraceEv.callT 9 [Val.vStr "e", Val.vCell (Cell.fnV 1)],
        TraceEv.snapT "e" 0] ∧
      listeners_count
        (runScript tblC8 60 emptyState
          [Act.onA "new_listener" 9, Act.onA "e" 1]).1 "e" = 1) := by
  refine ⟨?_, ?_, by decide⟩
  · intro tbl fuel st ev f h
    simp [onEv, onPub, onImm, exec, h]
  · intro tbl fuel st st1 ev c b h
    simp only [emit] at h
    simp only [onImm, exec, h]

/-- Witness for `c8_new_listener_before_append` at concrete inputs. -/
theorem c8_new_listener_before_append_witness :
    ("e" ∉ emptyState.emitting ∧
      onEv tblC8 60 emptyState "e" 1 = onImm tblC8 59 emptyState "e" (Cell.fnV 1)) ∧
    (emit tblC8 59 emptyState "new_listener"
        [Val.vStr "e", Val.vCell (Cell.fnV 1)] = (emptyState, Res.ok false) ∧
      onImm tblC8 60 emptyState "e" (Cell.fnV 1) =
        (appendL emptyState "e" (Cell.fnV 1), Res.ok true)) :=
  ⟨⟨by decide,
      c8_new_listener_before_append.1 tblC8 59 emptyState "e" 1 (by decide)⟩,
    ⟨by decide,
      c8_new_listener_before_append.2.1 tblC8 59 emptyState emptyState "e"
        (Cell.fnV 1) false (by decide)⟩⟩

lemma alookup_aset_self {α : Type} (l : List (String × α)) (k : String)
    (v : α) : alookup (aset l k v) k = some v := by
  induction l with
  | nil => simp [aset, alookup]
  | cons p rest ih =>
      by_cases h : p.1 = k <;> simp [aset, alookup, h, ih]

lemma listeners_count_appendL (st : EState) (ev : String) (c : Cell)
    (h : evRefOk st ev) :
    listeners_count (appendL st ev c) ev = listeners_count st ev + 1 := by
  unfold listeners_count appendL getRef heapSet heapGet
  cases halo : alookup st.events ev with
  | none =>
      simp only [halo, alookup_aset_self]
      rw [List.getD_eq_getElem?_getD, List.getElem?_set_self
        (by simp), Option.getD_some]
      simp [List.getD_eq_getElem?_getD, List.getElem?_concat_length]
  | some r =>
      have hr : r < st.heap.length := h r halo
      simp only [halo]
      rw [List.getD_eq_getElem?_getD, List.getElem?_set_self hr,
        Option.getD_some]
      simp

lemma listeners_count_queueAdd (st : EState) (ev ev2 : String) (c : Cell) :
    listeners_count (queueAdd st ev2 c) ev = listeners_count st ev := rfl

/-- C3: `on(E, L)` with `E` not on the emission stack appends immediately
(so `listeners_count(E)` grows by exactly 1, assuming no `new_listener`
listeners interfere with the registry); `on(E, L)` with `E` on the
emission stack only queues the addition, leaving the count unchanged; and
(observed on the concrete deferred scenario) the count stays unchanged for
the whole dispatch, then grows by 1 at unwind when `new_listener` fires
with `(E, L)`. -/
theorem c3_on_count_semantics :
    (∀ (tbl : Table) (fuel : Nat) (st : EState) (ev : String) (f : Nat),
        ev ∉ st.emitting →
        truthyEv st "new_listener" = false →
        evRefOk st ev →
        onEv tbl (fuel + 3) st ev f =
          (appendL st ev (Cell.fnV f), Res.ok true) ∧
        listeners_count (appendL st ev (Cell.fnV f)) ev =
          listeners_count st ev + 1) ∧
    (∀ (tbl : Table) (fuel : Nat) (st : EState) (ev : String) (f : Nat),
        ev ∈ st.emitting →
        onEv tbl (fuel + 1) st ev f =
          (queueAdd st ev (Cell.fnV f), Res.ok true) ∧
        listeners_count (queueAdd st ev (Cell.fnV f)) ev =
          listeners_count st ev) ∧
    ((runScript tblC3 60 emptyState
        [Act.onA "new_listener" 9, Act.onA "e" 1, Act.emitA "e" []]).1.trace =
      [TraceEv.callT 9 [Val.vStr "e", Val.vCell (Cell.fnV 1)],
        TraceEv.callT 1 [],
        TraceEv.snapT "e" 1, TraceEv.snapT "e" 1,
        TraceEv.callT 9 [Val.vStr "e", Val.vCell (Cell.fnV 2)]] ∧
      listeners_count
        (runScript tblC3 60 emptyState
          [Act.onA "new_listener" 9, Act.onA "e" 1, Act.emitA "e" []]).1 "e" =
        2) := by
  refine ⟨?_, ?_, by decide⟩
  · intro tbl fuel st ev f h1 h2 h3
    refine ⟨?_, listeners_count_appendL st ev (Cell.fnV f) h3⟩
    simp [onEv, onPub, exec, h1, h2]
  · intro tbl fuel st ev f h
    exact ⟨by simp [onEv, onPub, exec, h], rfl⟩

/-- Witness for `c3_on_count_semantics` at concrete inputs. -/
theorem c3_on_count_semantics_witness :
    ("e" ∉ emptyState.emitting ∧
      truthyEv emptyState "new_listener" = false ∧
      onEv tblNil 63 emptyState "e" 1 =
        (appendL emptyState "e" (Cell.fnV 1), Res.ok true)) ∧
    ("e" ∈ (pushEm emptyState "e").emitting ∧
      onEv tblNil 60 (pushEm emptyState "e") "e" 1 =
        (queueAdd (pushEm emptyState "e") "e" (Cell.fnV 1), Res.ok true)) :=
  ⟨⟨by decide, by decide,
      (c3_on_count_semantics.1 tblNil 60 emptyState "e" 1 (by decide)
        (by decide) (fun r hr => by simp [alookup] at hr)).1⟩,
    ⟨by decide,
      (c3_on_count_semantics.2.1 tblNil 59 (pushEm emptyState "e") "e" 1
        (by decide)).1⟩⟩

lemma findIdx?_lt_len {α : Type} {l : List α} {p : α → Bool} {i : Nat}
    (h : l.findIdx? p = some i) : i < l.length := by
  have h1 : l.findIdx p = i := by rw [List.findIdx_eq_findIdx?, h]
  have h2 : ∃ x ∈ l, p x = true := by
    by_contra hc
    push_neg at hc
    have hn : l.findIdx? p = none :=
      List.findIdx?_eq_none_iff.2 (fun x hx => by
        have := hc x hx
        simpa using this)
    simp [hn] at h
  have h3 := List.findIdx_lt_length.2 h2
  omega

lemma regList_popAt (st : EState) (ev : String) (off : Nat)
    (h : evRefOk st ev) :
    regList (popAt st ev off) ev = (regList st ev).eraseIdx off := by
  unfold regList popAt getRef heapSet heapGet
  cases halo : alookup st.events ev with
  | none =>
      simp only [halo, alookup_aset_self]
      rw [List.getD_eq_getElem?_getD, List.getElem?_set_self (by simp),
        Option.getD_some]
      simp [List.getD_eq_getElem?_getD, List.getElem?_concat_length]
  | some r =>
      have hr : r < st.heap.length := h r halo
      simp only [halo]
      rw [List.getD_eq_getElem?_getD, List.getElem?_set_self hr,
        Option.getD_some]

lemma listeners_count_regList (st : EState) (ev : String) :
    listeners_count st ev = (regList st ev).length := by
  unfold listeners_count regList
  cases alookup st.events ev <;> rfl

lemma regList_popAt_count (st : EState) (ev : String) (off : Nat)
    (h : evRefOk st ev) (hoff : off < (regList st ev).length) :
    listeners_count (popAt st ev off) ev = listeners_count st ev - 1 := by
  rw [listeners_count_regList, regList_popAt st ev off h,
    List.length_eraseIdx, listeners_count_regList]
  simp [hoff]

/-- C6: `remove(E, L)` with `E` not mid-dispatch deletes at most one
registry entry — the earliest occurrence whose unwrapped callable equals
`L` (the scan ignores once-wrapping) — and is a silent no-op (normal
return, state untouched) when nothing matches.  With no `remove_listener`
listeners to interfere, the registry becomes exactly the old list with
that one index erased and the count drops by exactly 1.  The concrete
conjuncts show: a listener registered twice loses only the earliest copy;
an earliest once-wrapped copy is the one removed. -/
theorem c6_remove_semantics :
    (∀ (tbl : Table) (fuel : Nat) (st : EState) (ev : String) (f : Nat),
        ev ∉ st.emitting →
        (regList st ev).findIdx? (matchesCell f) = none →
        remove tbl (fuel + 2) st ev f = (st, Res.ok true)) ∧
    (∀ (tbl : Table) (fuel : Nat) (st : EState) (ev : String) (f : Nat)
        (off : Nat),
        ev ∉ st.emitting →
        (regList st ev).findIdx? (matchesCell f) = some off →
        truthyEv (popAt st ev off) "remove_listener" = false →
        evRefOk st ev →
        remove tbl (fuel + 3) st ev f = (popAt st ev off, Res.ok true) ∧
        regList (popAt st ev off) ev = (regList st ev).eraseIdx off ∧
        listeners_count (popAt st ev off) ev = listeners_count st ev - 1) ∧
    ((runScript tblNil 60 emptyState
        [Act.onA "e" 5, Act.onA "e" 5, Act.removeA "e" 5]).1 =
      (runScript tblNil 60 emptyState [Act.onA "e" 5]).1 ∧
      regList
        (runScript tblNil 60 emptyState
          [Act.onceA "e" 5, Act.onA "e" 5, Act.removeA "e" 5]).1 "e" =
        [some (Cell.fnV 5)]) := by
  refine ⟨?_, ?_, by decide⟩
  · intro tbl fuel st ev f h1 h2
    simp only [regList] at h2
    simp [remove, removePub, exec, h1, h2]
  · intro tbl fuel st ev f off h1 h2 h3 h4
    refine ⟨?_, regList_popAt st ev off h4,
      regList_popAt_count st ev off h4 (findIdx?_lt_len h2)⟩
    simp only [regList] at h2
    simp [remove, removePub, exec, h1, h2, h3, emit]

/-- Witness for `c6_remove_semantics` at concrete inputs. -/
theorem c6_remove_semantics_witness :
    ("q" ∉ emptyState.emitting ∧
      (regList emptyState "q").findIdx? (matchesCell 7) = none ∧
      remove tblNil 60 emptyState "q" 7 = (emptyState, Res.ok true)) ∧
    ((regList (appendL emptyState "e" (Cell.onceV 5)) "e").findIdx?
        (matchesCell 5) = some 0 ∧
      remove tblNil 60 (appendL emptyState "e" (Cell.onceV 5)) "e" 5 =
        (popAt (appendL emptyState "e" (Cell.onceV 5)) "e" 0, Res.ok true)) :=
  ⟨⟨by decide, by decide,
      c6_remove_semantics.1 tblNil 58 emptyState "q" 7 (by decide) (by decide)⟩,
    ⟨by decide,
      (c6_remove_semantics.2.1 tblNil 57 (appendL emptyState "e" (Cell.onceV 5))
        "e" 5 0 (by decide) (by decide) (by decide)
        (fun r hr => by simp [appendL, getRef, heapSet, alookup] at hr ⊢; omega)).1⟩⟩

/-- C2: exception routing of the dispatch loop.  When the listener at
index `i` of the iterated list object raises `e`:
(a) if the event is `"error"` or no `"error"` listener is registered, the
loop stops right there (after the `finally` clause, which does not record
further invocations — see the last conjunct) and re-raises `e`;
(b1) otherwise the engine runs the nested `emit("error", event, e)`, and
an exception `e2` raised inside that nested dispatch propagates unchanged;
(b2) if the nested dispatch returns normally the loop resumes with index
`i + 1`.
(c) An exception propagating out of the loop propagates out of `emit`
itself, with the loop's final state returned as is. -/
theorem c2_error_routing :
    (∀ (tbl : Table) (fuel : Nat) (st st1 : EState) (ev : String)
        (args : List Val) (r i : Nat) (e : Exc),
        i < (heapGet st r).length →
        callEntry tbl fuel st ((heapGet st r).getD i none) args =
          (st1, Res.exn e) →
        (ev = "error" ∨ ¬ truthyEv st1 "error") →
        (doFin st1 ev i ((heapGet st r).getD i none)).2 = none →
        emitLoop tbl (fuel + 1) st ev args r i =
          ((doFin st1 ev i ((heapGet st r).getD i none)).1, Res.exn e)) ∧
    (∀ (tbl : Table) (fuel : Nat) (st st1 st2 : EState) (ev : String)
        (args : List Val) (r i : Nat) (e e2 : Exc),
        i < (heapGet st r).length →
        callEntry tbl fuel st ((heapGet st r).getD i none) args =
          (st1, Res.exn e) →
        ¬ (ev = "error" ∨ ¬ truthyEv st1 "error") →
        emit tbl fuel st1 "error" [Val.vStr ev, Val.vExc e] =
          (st2, Res.exn e2) →
        (doFin st2 ev i ((heapGet st r).getD i none)).2 = none →
        emitLoop tbl (fuel + 1) st ev args r i =
          ((doFin st2 ev i ((heapGet st r).getD i none)).1, Res.exn e2)) ∧
    (∀ (tbl : Table) (fuel : Nat) (st st1 st2 : EState) (ev : String)
        (args : List Val) (r i : Nat) (e : Exc) (b : Bool),
        i < (heapGet st r).length →
        callEntry tbl fuel st ((heapGet st r).getD i none) args =
          (st1, Res.exn e) →
        ¬ (ev = "error" ∨ ¬ truthyEv st1 "error") →
        emit tbl fuel st1 "error" [Val.vStr ev, Val.vExc e] =
          (st2, Res.ok b) →
        (doFin st2 ev i ((heapGet st r).getD i none)).2 = none →
        emitLoop tbl (fuel + 1) st ev args r i =
          emitLoop tbl fuel (doFin st2 ev i ((heapGet st r).getD i none)).1
            ev args r (i + 1)) ∧
    (∀ (tbl : Table) (fuel : Nat) (st st3 : EState) (ev : String)
        (args : List Val) (e : Exc),
        truthyEv st ev = true →
        emitLoop tbl fuel (getRef (pushEm st ev) ev).2 ev args
          (getRef (pushEm st ev) ev).1 0 = (st3, Res.exn e) →
        emit tbl (fuel + 1) st ev args = (st3, Res.exn e)) ∧
    (∀ (st : EState) (ev : String) (i : Nat) (entry : Option Cell),
        (doFin st ev i entry).1.trace = st.trace) := by
  refine ⟨?_, ?_, ?_, ?_, doFin_trace⟩
  · intro tbl fuel st st1 ev args r i e hi hcall hcond hfin
    simp only [callEntry] at hcall
    simp only [emitLoop, exec]
    rw [if_pos hi, hcall]
    simp only []
    rw [if_pos hcond, hfin]
    rfl
  · intro tbl fuel st st1 st2 ev args r i e e2 hi hcall hcond hemit hfin
    simp only [callEntry] at hcall
    simp only [emit] at hemit
    simp only [emitLoop, exec]
    rw [if_pos hi, hcall]
    simp only []
    rw [if_neg hcond, hemit]
    simp only []
    rw [hfin]
    rfl
  · intro tbl fuel st st1 st2 ev args r i e b hi hcall hcond hemit hfin
    simp only [callEntry] at hcall
    simp only [emit] at hemit
    simp only [emitLoop, exec]
    rw [if_pos hi, hcall]
    simp only []
    rw [if_neg hcond, hemit]
    simp only []
    rw [hfin]
  · intro tbl fuel st st3 ev args e htr hloop
    simp only [emitLoop] at hloop
    simp only [emit, exec, htr, if_true]
    rw [hloop]

/-- A registry with only `3 ↦ e` (the raising listener). -/
def stC2a : EState := appendL emptyState "e" (Cell.fnV 3)

/-- A registry with `4` (raising `error` listener) on `"error"` and `3`
(raising listener) on `"e"`. -/
def stC2b : EState :=
  appendL (appendL emptyState "error" (Cell.fnV 4)) "e" (Cell.fnV 3)

/-- A registry with `5` (benign `error` listener) on `"error"` and `3`
(raising listener) on `"e"`. -/
def stC2c : EState :=
  appendL (appendL emptyState "error" (Cell.fnV 5)) "e" (Cell.fnV 3)

/-- Witness for `c2_error_routing` at concrete inputs: the four
hypothesis-bearing conjuncts applied to the three error scenarios. -/
theorem c2_error_routing_witness :
    (0 < (heapGet stC2a 0).length ∧
      emitLoop tblC2 31 stC2a "e" [] 0 0 =
        ((doFin (bump stC2a 3 []) "e" 0 ((heapGet stC2a 0).getD 0 none)).1,
          Res.exn (Exc.user 7))) ∧
    (emitLoop tblC2 31 stC2b "e" [] 1 0 =
      ((doFin (emit tblC2 30 (bump stC2b 3 []) "error"
            [Val.vStr "e", Val.vExc (Exc.user 7)]).1 "e" 0
          ((heapGet stC2b 1).getD 0 none)).1,
        Res.exn (Exc.user 9))) ∧
    (emitLoop tblC2 31 stC2c "e" [] 1 0 =
      emitLoop tblC2 30
        (doFin (emit tblC2 30 (bump stC2c 3 []) "error"
            [Val.vStr "e", Val.vExc (Exc.user 7)]).1 "e" 0
          ((heapGet stC2c 1).getD 0 none)).1 "e" [] 1 1) ∧
    (emit tblC2 31 stC2a "e" [] =
      ((emitLoop tblC2 30 (getRef (pushEm stC2a "e") "e").2 "e" []
          (getRef (pushEm stC2a "e") "e").1 0).1,
        Res.exn (Exc.user 7))) :=
  ⟨⟨by decide,
      c2_error_routing.1 tblC2 30 stC2a (bump stC2a 3 []) "e" [] 0 0
        (Exc.user 7) (by decide) (by decide) (Or.inr (by decide)) (by decide)⟩,
    c2_error_routing.2.1 tblC2 30 stC2b (bump stC2b 3 [])
      (emit tblC2 30 (bump stC2b 3 []) "error"
        [Val.vStr "e", Val.vExc (Exc.user 7)]).1 "e" [] 1 0 (Exc.user 7)
      (Exc.user 9) (by decide) (by decide) (by decide) (by decide) (by decide),
    c2_error_routing.2.2.1 tblC2 30 stC2c (bump stC2c 3 [])
      (emit tblC2 30 (bump stC2c 3 []) "error"
        [Val.vStr "e", Val.vExc (Exc.user 7)]).1 "e" [] 1 0 (Exc.user 7)
      true (by decide) (by decide) (by decide) (by decide) (by decide),
    c2_error_routing.2.2.2.1 tblC2 30 stC2a
      (emitLoop tblC2 30 (getRef (pushEm stC2a "e") "e").2 "e" []
        (getRef (pushEm stC2a "e") "e").1 0).1 "e" [] (Exc.user 7)
      (by decide) (by decide)⟩

lemma alookup_eq_none_of_not_mem {α : Type} (l : List (String × α))
    (k : String) (h : k ∉ l.map Prod.fst) : alookup l k = none := by
  induction l with
  | nil => rfl
  | cons p rest ih =>
      simp only [List.map_cons, List.mem_cons] at h
      push_neg at h
      have hne : ¬ p.1 = k := fun hh => h.1 hh.symm
      simp [alookup, hne, ih h.2]

lemma alookup_adrop_of_nodup {α : Type} (l : List (String × α)) (k : String)
    (h : (l.map Prod.fst).Nodup) : alookup (adrop l k) k = none := by
  induction l with
  | nil => rfl
  | cons p rest ih =>
      simp only [List.map_cons, List.nodup_cons] at h
      by_cases hk : p.1 = k
      · simpa [adrop, hk] using
          alookup_eq_none_of_not_mem rest k (hk ▸ h.1)
      · simp [adrop, alookup, hk, ih h.2]

/-- C4: deferred mutations are flushed exactly when the event leaves the
emission stack, removals first then additions, each in queue order via the
immediate paths.
(1a) If after the pop the event is still on the stack, nothing is flushed.
(1b) If it is not, the two queues are popped from their maps and the
removals then the additions are applied, and `emit` returns the resulting
state.
(1c) The state the flush loops run on no longer holds either queue
(well-formed queue maps have duplicate-free keys), so the flush happens
exactly once.
(2) The flush loops walk their queue in order, one item at a time,
through `_remove` / `_on`.
(3) Concretely, with listener `1` queueing `remove(e,2)`, `on(e,3)`,
`on(e,4)` mid-dispatch: after `emit("e")` the registry is `[1, 3, 4]`, the
queues are empty, and the trace shows `remove_listener` for `2` before
`new_listener` for `3` then `4`. -/
theorem c4_deferred_flush :
    (∀ (tbl : Table) (fuel : Nat) (st st3 : EState) (ev : String)
        (args : List Val) (b : Bool),
        truthyEv st ev = true →
        emitLoop tbl fuel (getRef (pushEm st ev) ev).2 ev args
          (getRef (pushEm st ev) ev).1 0 = (st3, Res.ok b) →
        ev ∈ (popEm (filterStep st3 ev)).emitting →
        emit tbl (fuel + 1) st ev args =
          (popEm (filterStep st3 ev), Res.ok true)) ∧
    (∀ (tbl : Table) (fuel : Nat) (st st3 st8 st9 : EState) (ev : String)
        (args : List Val) (b b1 b2 : Bool),
        truthyEv st ev = true →
        emitLoop tbl fuel (getRef (pushEm st ev) ev).2 ev args
          (getRef (pushEm st ev) ev).1 0 = (st3, Res.ok b) →
        ev ∉ (popEm (filterStep st3 ev)).emitting →
        flushRem tbl fuel
          (popAddQ (popRemQ (popEm (filterStep st3 ev)) ev).2 ev).2 ev
          (popRemQ (popEm (filterStep st3 ev)) ev).1 = (st8, Res.ok b1) →
        flushAdd tbl fuel st8 ev
          (popAddQ (popRemQ (popEm (filterStep st3 ev)) ev).2 ev).1 =
          (st9, Res.ok b2) →
        emit tbl (fuel + 1) st ev args = (st9, Res.ok true)) ∧
    (∀ (st : EState) (ev : String),
        (st.removals.map Prod.fst).Nodup →
        (st.additions.map Prod.fst).Nodup →
        alookup (popAddQ (popRemQ st ev).2 ev).2.removals ev = none ∧
        alookup (popAddQ (popRemQ st ev).2 ev).2.additions ev = none) ∧
    (∀ (tbl : Table) (fuel : Nat) (st st1 : EState) (ev : String) (f : Nat)
        (rest : List Nat) (b : Bool),
        removeImm tbl fuel st ev f = (st1, Res.ok b) →
        flushRem tbl (fuel + 1) st ev (f :: rest) =
          flushRem tbl fuel st1 ev rest) ∧
    (∀ (tbl : Table) (fuel : Nat) (st st1 : EState) (ev : String) (c : Cell)
        (rest : List Cell) (b : Bool),
        onImm tbl fuel st ev c = (st1, Res.ok b) →
        flushAdd tbl (fuel + 1) st ev (c :: rest) =
          flushAdd tbl fuel st1 ev rest) ∧
    ((runScript tblC4 80 emptyState
        [Act.onA "new_listener" 9, Act.onA "remove_listener" 8,
          Act.onA "e" 1, Act.onA "e" 2, Act.emitA "e" []]).1.removals = [] ∧
      (runScript tblC4 80 emptyState
        [Act.onA "new_listener" 9, Act.onA "remove_listener" 8,
          Act.onA "e" 1, Act.onA "e" 2, Act.emitA "e" []]).1.additions = [] ∧
      regList
        (runScript tblC4 80 emptyState
          [Act.onA "new_listener" 9, Act.onA "remove_listener" 8,
            Act.onA "e" 1, Act.onA "e" 2, Act.emitA "e" []]).1 "e" =
        [some (Cell.fnV 1), some (Cell.fnV 3), some (Cell.fnV 4)] ∧
      (runScript tblC4 80 emptyState
        [Act.onA "new_listener" 9, Act.onA "remove_listener" 8,
          Act.onA "e" 1, Act.onA "e" 2, Act.emitA "e" []]).1.trace =
        [TraceEv.callT 9 [Val.vStr "remove_listener", Val.vCell (Cell.fnV 8)],
          TraceEv.callT 9 [Val.vStr "e", Val.vCell (Cell.fnV 1)],
          TraceEv.callT 9 [Val.vStr "e", Val.vCell (Cell.fnV 2)],
          TraceEv.callT 1 [],
          TraceEv.callT 2 [],
          TraceEv.callT 8 [Val.vStr "e", Val.vCell (Cell.fnV 2)],
          TraceEv.callT 9 [Val.vStr "e", Val.vCell (Cell.fnV 3)],
          TraceEv.callT 9 [Val.vStr "e", Val.vCell (Cell.fnV 4)]]) := by
  refine ⟨?_, ?_, ?_, ?_, ?_, by decide⟩
  · intro tbl fuel st st3 ev args b htr hloop hmem
    simp only [emitLoop] at hloop
    simp only [emit, exec, htr, if_true]
    rw [hloop]
    simp only []
    rw [if_pos hmem]
  · intro tbl fuel st st3 st8 st9 ev args b b1 b2 htr hloop hmem hfr hfa
    simp only [emitLoop] at hloop
    simp only [flushRem] at hfr
    simp only [flushAdd] at hfa
    simp only [emit, exec, htr, if_true]
    rw [hloop]
    simp only []
    rw [if_neg hmem]
    try simp only []
    rw [hfr]
    try simp only []
    rw [hfa]
  · intro st ev h1 h2
    exact ⟨alookup_adrop_of_nodup st.removals ev h1,
      alookup_adrop_of_nodup st.additions ev h2⟩
  · intro tbl fuel st st1 ev f rest b hrem
    simp only [removeImm] at hrem
    simp only [flushRem, exec]
    rw [hrem]
  · intro tbl fuel st st1 ev c rest b hon
    simp only [onImm] at hon
    simp only [flushAdd, exec]
    rw [hon]

/-- A state used to witness the flush: one inert listener on `"e"`, a
queued removal of the unregistered `7`, and a queued addition of `3`. -/
def stC4w : EState :=
  ⟨[[some (Cell.fnV 1)]], [("e", 0)], [("e", [7])], [("e", [Cell.fnV 3])],
    [], [], []⟩

/-- A state whose emission stack already holds a stale `"e"` marker. -/
def stC4s : EState := pushEm (appendL emptyState "e" (Cell.fnV 1)) "e"

/-- Witness for `c4_deferred_flush` at concrete inputs. -/
theorem c4_deferred_flush_witness :
    (emit tblNil 41 stC4s "e" [] =
      (popEm (filterStep
        (emitLoop tblNil 40 (getRef (pushEm stC4s "e") "e").2 "e" []
          (getRef (pushEm stC4s "e") "e").1 0).1 "e"), Res.ok true)) ∧
    (emit tblNil 41 stC4w "e" [] =
      ((flushAdd tblNil 40
          (flushRem tblNil 40
            (popAddQ (popRemQ (popEm (filterStep
              (emitLoop tblNil 40 (getRef (pushEm stC4w "e") "e").2 "e" []
                (getRef (pushEm stC4w "e") "e").1 0).1 "e")) "e").2 "e").2 "e"
            (popRemQ (popEm (filterStep
              (emitLoop tblNil 40 (getRef (pushEm stC4w "e") "e").2 "e" []
                (getRef (pushEm stC4w "e") "e").1 0).1 "e")) "e").1).1 "e"
          (popAddQ (popRemQ (popEm (filterStep
            (emitLoop tblNil 40 (getRef (pushEm stC4w "e") "e").2 "e" []
              (getRef (pushEm stC4w "e") "e").1 0).1 "e")) "e").2 "e").1).1,
        Res.ok true)) ∧
    (alookup (popAddQ (popRemQ stC4w "e").2 "e").2.removals "e" = none ∧
      alookup (popAddQ (popRemQ stC4w "e").2 "e").2.additions "e" = none) ∧
    (flushRem tblNil 11 stC4w "e" (7 :: []) = flushRem tblNil 10 stC4w "e" []) ∧
    (flushAdd tblNil 11 emptyState "e" (Cell.fnV 2 :: []) =
      flushAdd tblNil 10 (appendL emptyState "e" (Cell.fnV 2)) "e" []) :=
  ⟨c4_deferred_flush.1 tblNil 40 stC4s
      (emitLoop tblNil 40 (getRef (pushEm stC4s "e") "e").2 "e" []
        (getRef (pushEm stC4s "e") "e").1 0).1 "e" [] true (by decide)
      (by decide) (by decide),
    c4_deferred_flush.2.1 tblNil 40 stC4w
      (emitLoop tblNil 40 (getRef (pushEm stC4w "e") "e").2 "e" []
        (getRef (pushEm stC4w "e") "e").1 0).1
      (flushRem tblNil 40
        (popAddQ (popRemQ (popEm (filterStep
          (emitLoop tblNil 40 (getRef (pushEm stC4w "e") "e").2 "e" []
            (getRef (pushEm stC4w "e") "e").1 0).1 "e")) "e").2 "e").2 "e"
        (popRemQ (popEm (filterStep
          (emitLoop tblNil 40 (getRef (pushEm stC4w "e") "e").2 "e" []
            (getRef (pushEm stC4w "e") "e").1 0).1 "e")) "e").1).1
      (flushAdd tblNil 40
        (flushRem tblNil 40
          (popAddQ (popRemQ (popEm (filterStep
            (emitLoop tblNil 40 (getRef (pushEm stC4w "e") "e").2 "e" []
              (getRef (pushEm stC4w "e") "e").1 0).1 "e")) "e").2 "e").2 "e"
          (popRemQ (popEm (filterStep
            (emitLoop tblNil 40 (getRef (pushEm stC4w "e") "e").2 "e" []
              (getRef (pushEm stC4w "e") "e").1 0).1 "e")) "e").1).1 "e"
        (popAddQ (popRemQ (popEm (filterStep
          (emitLoop tblNil 40 (getRef (pushEm stC4w "e") "e").2 "e" []
            (getRef (pushEm stC4w "e") "e").1 0).1 "e")) "e").2 "e").1).1
      "e" [] true true true (by decide) (by decide) (by decide) (by decide)
      (by decide),
    c4_deferred_flush.2.2.1 stC4w "e" (by decide) (by decide),
    c4_deferred_flush.2.2.2.1 tblNil 10 stC4w stC4w "e" 7 [] true (by decide),
    c4_deferred_flush.2.2.2.2.1 tblNil 10 emptyState
      (appendL emptyState "e" (Cell.fnV 2)) "e" (Cell.fnV 2) [] true
      (by decide)⟩

/-- C10: `once(E, L)` hands the internal `_Once` wrapper — not the raw
callable — to the `new_listener` event, on both the immediate path
(`once` goes straight to `_on` with the wrapped cell) and the deferred
path (the wrapped cell is what is queued and later flushed through `_on`),
while `listeners(E)` unwraps it and `remove(E, L)` matches it against the
raw callable.  The concrete conjuncts record the observer being called
with the wrapper `onceV 5` on both paths, `listeners` yielding the raw
`5`, and `remove("e", 5)` deleting the wrapped entry. -/
theorem c10_once_wrapper_in_new_listener :
    (∀ (tbl : Table) (fuel : Nat) (st : EState) (ev : String) (f : Nat),
        ev ∉ st.emitting →
        once tbl (fuel + 1) st ev f = onImm tbl fuel st ev (Cell.onceV f)) ∧
    (∀ (tbl : Table) (fuel : Nat) (st : EState) (ev : String) (f : Nat),
        ev ∈ st.emitting →
        once tbl (fuel + 1) st ev f =
          (queueAdd st ev (Cell.onceV f), Res.ok true)) ∧
    (∀ f : Nat, unwrapEntry (some (Cell.onceV f)) = Val.vCell (Cell.fnV f) ∧
      matchesCell f (some (Cell.onceV f)) = true) ∧
    ((runScript tblNil 60 emptyState
        [Act.onA "new_listener" 9, Act.onceA "e" 5]).1.trace =
      [TraceEv.callT 9 [Val.vStr "e", Val.vCell (Cell.onceV 5)]] ∧
      (runScript tblC10 60 emptyState
        [Act.onA "new_listener" 9, Act.onA "e" 1, Act.emitA "e" []]).1.trace =
      [TraceEv.callT 9 [Val.vStr "e", Val.vCell (Cell.fnV 1)],
        TraceEv.callT 1 [],
        TraceEv.callT 9 [Val.vStr "e", Val.vCell (Cell.onceV 5)]] ∧
      (genDrain (runScript tblNil 60 emptyState
          [Act.onA "new_listener" 9, Act.onceA "e" 5]).1 5
        (listeners (runScript tblNil 60 emptyState
          [Act.onA "new_listener" 9, Act.onceA "e" 5]).1 "e")).1 =
        [Val.vCell (Cell.fnV 5)] ∧
      regList (runScript tblNil 60 emptyState
        [Act.onA "new_listener" 9, Act.onceA "e" 5, Act.removeA "e" 5]).1
        "e" = []) := by
  refine ⟨?_, ?_, fun f => ⟨rfl, by simp [matchesCell]⟩, by decide⟩
  · intro tbl fuel st ev f h
    simp [once, onPub, onImm, exec, h]
  · intro tbl fuel st ev f h
    simp [once, onPub, exec, h]

/-- Witness for `c10_once_wrapper_in_new_listener` at concrete inputs. -/
theorem c10_once_wrapper_in_new_listener_witness :
    ("e" ∉ emptyState.emitting ∧
      once tblNil 60 emptyState "e" 5 =
        onImm tblNil 59 emptyState "e" (Cell.onceV 5)) ∧
    ("e" ∈ (pushEm emptyState "e").emitting ∧
      once tblNil 60 (pushEm emptyState "e") "e" 5 =
        (queueAdd (pushEm emptyState "e") "e" (Cell.onceV 5), Res.ok true)) :=
  ⟨⟨by decide,
      c10_once_wrapper_in_new_listener.1 tblNil 59 emptyState "e" 5 (by decide)⟩,
    ⟨by decide,
      c10_once_wrapper_in_new_listener.2.1 tblNil 59 (pushEm emptyState "e")
        "e" 5 (by decide)⟩⟩

/-- The registry state with one listener `5` on `"e"`, used for the
`listeners` generator claims. -/
def stC9 : EState := (runScript tblNil 60 emptyState [Act.onA "e" 5]).1

/-- C9 counterexample: the sequence returned by `listeners` is a Python
generator and is *not* restartable.  With listener `5` registered for
`"e"`, a full first iteration yields `[5]`; the registry is unchanged; but
iterating the same sequence again yields nothing instead of reflecting the
live registry. -/
theorem c9_not_restartable_counterexample :
    (genDrain stC9 3 (listeners stC9 "e")).1 = [Val.vCell (Cell.fnV 5)] ∧
    regList stC9 "e" = [some (Cell.fnV 5)] ∧
    (genDrain stC9 3 (genDrain stC9 3 (listeners stC9 "e")).2).1 = [] := by
  decide

lemma genDrain_some (st : EState) :
    ∀ (fuel : Nat) (r i : Nat),
      (heapGet st r).length - i < fuel →
      (genDrain st fuel ⟨some r, i, false⟩).1 =
        ((heapGet st r).drop i).map unwrapEntry := by
  intro fuel
  induction fuel with
  | zero => intro r i h; omega
  | succ fuel ih =>
      intro r i h
      by_cases hi : i < (heapGet st r).length
      · have hg : (heapGet st r).getD i none = (heapGet st r)[i] := by
          rw [List.getD_eq_getElem?_getD, List.getElem?_eq_getElem hi,
            Option.getD_some]
        have ih2 := ih r (i + 1) (by omega)
        simp only [genDrain, genNext, hi, if_true, Bool.false_eq_true,
          if_false]
        rw [hg, List.drop_eq_getElem_cons hi, List.map_cons, ih2]
      · have hle : (heapGet st r).length ≤ i := by omega
        simp [genDrain, genNext, hi, List.drop_eq_nil_of_le hle]

/-- C9 amended: `listeners(E)` returns a lazy, finite, *single-pass*
sequence that yields the raw (once-unwrapped) callables currently
registered for `E` in registration order.  Iteration consults the live
list object (a mutation between creation and iteration is visible), a
fresh `listeners(E)` call reflects the live registry, but an exhausted
sequence stays exhausted: restarting yields nothing rather than the live
registry. -/
theorem c9_listeners_lazy_single_pass :
    (∀ (st : EState) (ev : String) (fuel : Nat),
        (regList st ev).length < fuel →
        (genDrain st fuel (listeners st ev)).1 =
          (regList st ev).map unwrapEntry) ∧
    (∀ (st : EState) (g : Gen), g.done = true → genNext st g = (none, g)) ∧
    ((genDrain (runScript tblNil 60 stC9 [Act.onA "e" 6]).1 5
        (listeners stC9 "e")).1 =
      [Val.vCell (Cell.fnV 5), Val.vCell (Cell.fnV 6)] ∧
      (genDrain (runScript tblNil 60 stC9 [Act.onA "e" 6]).1 5
        (listeners (runScript tblNil 60 stC9 [Act.onA "e" 6]).1 "e")).1 =
      [Val.vCell (Cell.fnV 5), Val.vCell (Cell.fnV 6)]) := by
  refine ⟨?_, ?_, by decide⟩
  · intro st ev fuel h
    unfold listeners
    unfold regList at h ⊢
    cases halo : alookup st.events ev with
    | none =>
        simp only [halo] at h ⊢
        cases fuel with
        | zero => omega
        | succ fuel => simp [genDrain, genNext]
    | some r =>
        simp only [halo] at h ⊢
        rw [genDrain_some st fuel r 0 (by omega)]
        simp
  · intro st g h
    simp [genNext, h]

/-- Witness for `c9_listeners_lazy_single_pass` at concrete inputs. -/
theorem c9_listeners_lazy_single_pass_witness :
    ((regList stC9 "e").length < 3 ∧
      (genDrain stC9 3 (listeners stC9 "e")).1 =
        (regList stC9 "e").map unwrapEntry) ∧
    ((⟨some 0, 1, true⟩ : Gen).done = true ∧
      genNext stC9 ⟨some 0, 1, true⟩ = (none, ⟨some 0, 1, true⟩)) :=
  ⟨⟨by decide, c9_listeners_lazy_single_pass.1 stC9 "e" 3 (by decide)⟩,
    ⟨by decide, c9_listeners_lazy_single_pass.2.1 stC9 ⟨some 0, 1, true⟩ rfl⟩⟩

lemma getRef_emitting (st : EState) (ev : String) :
    (getRef st ev).2.emitting = st.emitting := by
  unfold getRef
  cases alookup st.events ev <;> rfl

lemma prefix_dropLast {α : Type} {l m : List α} (a : α)
    (h : l ++ [a] <+: m) : l <+: m.dropLast := by
  obtain ⟨t, ht⟩ := h
  cases t with
  | nil =>
      rw [← ht]
      simp [List.dropLast_concat]
  | cons b t' =>
      rw [← ht, List.append_assoc]
      rw [List.dropLast_append_of_ne_nil _ (by simp)]
      exact List.prefix_append _ _

/-- The emission stack only grows by suffixes: whatever emitter code runs,
the starting stack is a prefix of the resulting stack.  (A balanced `emit`
restores the stack exactly; an aborted one leaves extra entries; nothing
ever removes entries below the current frame.) -/
lemma exec_emitting_extends (tbl : Table) :
    ∀ (fuel : Nat) (st : EState) (c : Call),
      st.emitting <+: (exec tbl fuel st c).1.emitting := by
  intro fuel
  induction fuel with
  | zero => intro st c; exact List.prefix_refl _
  | succ fuel ih =>
      intro st c
      cases c with
      | emitC ev args =>
          simp only [exec]
          by_cases htr : truthyEv st ev = true
          · simp only [htr, if_true]
            rcases heq1 : exec tbl fuel (getRef (pushEm st ev) ev).2
                (Call.loopC ev args (getRef (pushEm st ev) ev).1 0) with
              ⟨st3, res3⟩
            have h1 : st.emitting ++ [ev] <+: st3.emitting := by
              have h := ih (getRef (pushEm st ev) ev).2
                (Call.loopC ev args (getRef (pushEm st ev) ev).1 0)
              rw [heq1, getRef_emitting, pushEm_emitting] at h
              exact h
            have h0 : st.emitting <+: st3.emitting :=
              (List.prefix_append st.emitting [ev]).trans h1
            have h5 : st.emitting <+: (popEm (filterStep st3 ev)).emitting := by
              rw [popEm_emitting, filterStep_emitting]
              exact prefix_dropLast ev h1
            cases res3 with
            | exn e => exact h0
            | stuck => exact h0
            | ok b =>
                simp only []
                by_cases hmem : ev ∈ (popEm (filterStep st3 ev)).emitting
                · rw [if_pos hmem]
                  exact h5
                · rw [if_neg hmem]
                  rcases heq2 : exec tbl fuel
                      (popAddQ (popRemQ (popEm (filterStep st3 ev)) ev).2 ev).2
                      (Call.flushRemC ev
                        (popRemQ (popEm (filterStep st3 ev)) ev).1) with
                    ⟨st8, res8⟩
                  have h8 : st.emitting <+: st8.emitting := by
                    have h := ih
                      (popAddQ (popRemQ (popEm (filterStep st3 ev)) ev).2 ev).2
                      (Call.flushRemC ev
                        (popRemQ (popEm (filterStep st3 ev)) ev).1)
                    rw [heq2] at h
                    exact h5.trans h
                  cases res8 with
                  | exn e => exact h8
                  | stuck => exact h8
                  | ok b8 =>
                      simp only []
                      rcases heq3 : exec tbl fuel st8
                          (Call.flushAddC ev
                            (popAddQ (popRemQ (popEm (filterStep st3 ev)) ev).2
                              ev).1) with ⟨st9, res9⟩
                      have h9 : st.emitting <+: st9.emitting := by
                        have h := ih st8
                          (Call.flushAddC ev
                            (popAddQ (popRemQ (popEm (filterStep st3 ev)) ev).2
                              ev).1)
                        rw [heq3] at h
                        exact h8.trans h
                      cases res9 <;> exact h9
          · simp only [htr, if_false]
            exact List.prefix_refl _
      | loopC ev args r i =>
          simp only [exec]
          by_cases hi : i < (heapGet st r).length
          · rw [if_pos hi]
            rcases heq1 : exec tbl fuel st
                (Call.callC ((heapGet st r).getD i none) args) with ⟨st1, res1⟩
            have h1 : st.emitting <+: st1.emitting := by
              have h := ih st (Call.callC ((heapGet st r).getD i none) args)
              rw [heq1] at h
              exact h
            cases res1 with
            | stuck => exact h1
            | ok u =>
                simp only []
                cases hfin : (doFin st1 ev i ((heapGet st r).getD i none)).2 with
                | some e =>
                    simp only []
                    rw [doFin_emitting]
                    exact h1
                | none =>
                    simp only []
                    have h2 := ih (doFin st1 ev i ((heapGet st r).getD i none)).1
                      (Call.loopC ev args r (i + 1))
                    refine List.IsPrefix.trans ?_ h2
                    rw [doFin_emitting]
                    exact h1
            | exn e =>
                simp only []
                by_cases hcond : ev = "error" ∨ ¬ truthyEv st1 "error"
                · rw [if_pos hcond]
                  simp only []
                  rw [doFin_emitting]
                  exact h1
                · rw [if_neg hcond]
                  rcases heq2 : exec tbl fuel st1
                      (Call.emitC "error" [Val.vStr ev, Val.vExc e]) with
                    ⟨st2, res2⟩
                  have h2 : st.emitting <+: st2.emitting := by
                    have h := ih st1
                      (Call.emitC "error" [Val.vStr ev, Val.vExc e])
                    rw [heq2] at h
                    exact h1.trans h
                  cases res2 with
                  | stuck => exact h2
                  | ok b =>
                      simp only []
                      cases hfin : (doFin st2 ev i
                          ((heapGet st r).getD i none)).2 with
                      | some e3 =>
                          simp only []
                          rw [doFin_emitting]
                          exact h2
                      | none =>
                          simp only []
                          have h3 := ih
                            (doFin st2 ev i ((heapGet st r).getD i none)).1
                            (Call.loopC ev args r (i + 1))
                          refine List.IsPrefix.trans ?_ h3
                          rw [doFin_emitting]
                          exact h2
                  | exn e2 =>
                      simp only []
                      rw [doFin_emitting]
                      exact h2
          · rw [if_neg hi]
      | callC entry args =>
          simp only [exec]
          cases entry with
          | none => exact List.prefix_refl _
          | some cell =>
              cases cell with
              | fnV f =>
                  have h := ih (bump st f args) (Call.progC f (tbl f))
                  rw [bump_emitting] at h
                  exact h
              | onceV f =>
                  have h := ih (bump st f args) (Call.progC f (tbl f))
                  rw [bump_emitting] at h
                  exact h
      | progC self acts =>
          simp only [exec]
          cases acts with
          | nil => exact List.prefix_refl _
          | cons a rest =>
              cases a with
              | raiseE e =>
                  try simp only []
                  exact List.prefix_refl _
              | emitA ev args =>
                  try simp only []
                  rcases heq : exec tbl fuel st (Call.emitC ev args) with
                    ⟨st1, res⟩
                  have h1 : st.emitting <+: st1.emitting := by
                    have h := ih st (Call.emitC ev args)
                    rw [heq] at h
                    exact h
                  cases res with
                  | exn e => exact h1
                  | stuck => exact h1
                  | ok b =>
                      have h2 := ih st1 (Call.progC self rest)
                      exact h1.trans h2
              | onA ev f =>
                  try simp only []
                  rcases heq : exec tbl fuel st (Call.onPubC ev (Cell.fnV f))
                    with ⟨st1, res⟩
                  have h1 : st.emitting <+: st1.emitting := by
                    have h := ih st (Call.onPubC ev (Cell.fnV f))
                    rw [heq] at h
                    exact h
                  cases res with
                  | exn e => exact h1
                  | stuck => exact h1
                  | ok b =>
                      have h2 := ih st1 (Call.progC self rest)
                      exact h1.trans h2
              | onceA ev f =>
                  try simp only []
                  rcases heq : exec tbl fuel st (Call.onPubC ev (Cell.onceV f))
                    with ⟨st1, res⟩
                  have h1 : st.emitting <+: st1.emitting := by
                    have h := ih st (Call.onPubC ev (Cell.onceV f))
                    rw [heq] at h
                    exact h
                  cases res with
                  | exn e => exact h1
                  | stuck => exact h1
                  | ok b =>
                      have h2 := ih st1 (Call.progC self rest)
                      exact h1.trans h2
              | removeA ev f =>
                  try simp only []
                  rcases heq : exec tbl fuel st (Call.removePubC ev f) with
                    ⟨st1, res⟩
                  have h1 : st.emitting <+: st1.emitting := by
                    have h := ih st (Call.removePubC ev f)
                    rw [heq] at h
                    exact h
                  cases res with
                  | exn e => exact h1
                  | stuck => exact h1
                  | ok b =>
                      have h2 := ih st1 (Call.progC self rest)
                      exact h1.trans h2
              | snapA ev =>
                  try simp only []
                  exact ih
                    { st with
                        trace :=
                          st.trace ++ [TraceEv.snapT ev (listeners_count st ev)] }
                    (Call.progC self rest)
              | ifFirst thn els =>
                  try simp only []
                  exact ih st
                    (Call.progC self
                      ((if countGet st self = 1 then thn else els) ++ rest))
      | onPubC ev c =>
          simp only [exec]
          by_cases hmem : ev ∈ st.emitting
          · rw [if_pos hmem]
            exact List.prefix_refl _
          · rw [if_neg hmem]
            exact ih st (Call.onImmC ev c)
      | removePubC ev f =>
          simp only [exec]
          by_cases hmem : ev ∈ st.emitting
          · rw [if_pos hmem]
            exact List.prefix_refl _
          · rw [if_neg hmem]
            exact ih st (Call.removeImmC ev f)
      | onImmC ev c =>
          simp only [exec]
          rcases heq : exec tbl fuel st
              (Call.emitC "new_listener" [Val.vStr ev, Val.vCell c]) with
            ⟨st1, res⟩
          have h1 : st.emitting <+: st1.emitting := by
            have h := ih st
              (Call.emitC "new_listener" [Val.vStr ev, Val.vCell c])
            rw [heq] at h
            exact h
          cases res with
          | exn e => exact h1
          | stuck => exact h1
          | ok b =>
              simp only []
              rw [appendL_emitting]
              exact h1
      | removeImmC ev f =>
          simp only [exec]
          cases hidx : (match alookup st.events ev with
              | none => []
              | some r => heapGet st r).findIdx? (matchesCell f) with
          | none =>
              exact List.prefix_refl _
          | some off =>
              simp only []
              rcases heq : exec tbl fuel (popAt st ev off)
                  (Call.emitC "remove_listener"
                    [Val.vStr ev, Val.vCell (Cell.fnV f)]) with ⟨st2, res⟩
              have h2 : st.emitting <+: st2.emitting := by
                have h := ih (popAt st ev off)
                  (Call.emitC "remove_listener"
                    [Val.vStr ev, Val.vCell (Cell.fnV f)])
                rw [heq, popAt_emitting] at h
                exact h
              cases res <;> exact h2
      | flushRemC ev fs =>
          simp only [exec]
          cases fs with
          | nil => exact List.prefix_refl _
          | cons f rest =>
              simp only []
              rcases heq : exec tbl fuel st (Call.removeImmC ev f) with
                ⟨st1, res⟩
              have h1 : st.emitting <+: st1.emitting := by
                have h := ih st (Call.removeImmC ev f)
                rw [heq] at h
                exact h
              cases res with
              | exn e => exact h1
              | stuck => exact h1
              | ok b =>
                  have h2 := ih st1 (Call.flushRemC ev rest)
                  exact h1.trans h2
      | flushAddC ev cs =>
          simp only [exec]
          cases cs with
          | nil => exact List.prefix_refl _
          | cons cc rest =>
              simp only []
              rcases heq : exec tbl fuel st (Call.onImmC ev cc) with
                ⟨st1, res⟩
              have h1 : st.emitting <+: st1.emitting := by
                have h := ih st (Call.onImmC ev cc)
                rw [heq] at h
                exact h
              cases res with
              | exn e => exact h1
              | stuck => exact h1
              | ok b =>
                  have h2 := ih st1 (Call.flushAddC ev rest)
                  exact h1.trans h2

/-- The one-listener registry for the aborted-dispatch scenario. -/
def stC7a : EState := appendL emptyState "e" (Cell.fnV 3)

/-- The state after the aborted `emit("e")`: the exception skipped the
post-loop cleanup, so `"e"` is still on the emission stack. -/
def stC7b : EState := (emit tblC7 40 stC7a "e" []).1

/-- The state after a later `on("e", 2)`: the stale marker forces the
request into the pending-additions queue. -/
def stC7d : EState := (onEv tblC7 40 stC7b "e" 2).1

/-- C7: when `emit` terminates by propagating a listener exception, none
of the post-loop cleanup runs — `emit` returns the loop's state exactly as
the loop left it, so the event is not popped from the emission stack,
tombstones are not filtered, and the pending queues are not flushed (part
1).  While the stale marker is on the stack, `on`/`once`/`remove` only
queue (parts 2–3).  No emitter execution ever removes an existing stack
entry (the stack only grows by suffixes — part 4), so the queues for the
event are never flushed again.  Concretely (part 5): after an aborted
`emit("e")`, a later `on("e", 2)` is queued, and a subsequent successful
`emit("e")` still leaves the addition queued, the registry without `2`,
and the stale marker in place. -/
theorem c7_abort_skips_cleanup :
    (∀ (tbl : Table) (fuel : Nat) (st st' : EState) (ev : String)
        (args : List Val) (e : Exc),
        truthyEv st ev = true →
        emitLoop tbl fuel (getRef (pushEm st ev) ev).2 ev args
          (getRef (pushEm st ev) ev).1 0 = (st', Res.exn e) →
        emit tbl (fuel + 1) st ev args = (st', Res.exn e)) ∧
    (∀ (tbl : Table) (fuel : Nat) (st : EState) (ev : String) (c : Cell),
        ev ∈ st.emitting →
        onPub tbl (fuel + 1) st ev c = (queueAdd st ev c, Res.ok true)) ∧
    (∀ (tbl : Table) (fuel : Nat) (st : EState) (ev : String) (f : Nat),
        ev ∈ st.emitting →
        removePub tbl (fuel + 1) st ev f = (queueRem st ev f, Res.ok true)) ∧
    (∀ (tbl : Table) (fuel : Nat) (st : EState) (c : Call) (ev : String),
        ev ∈ st.emitting → ev ∈ (exec tbl fuel st c).1.emitting) ∧
    ((emit tblC7 40 stC7a "e" []).2 = Res.exn (Exc.user 7) ∧
      stC7b.emitting = ["e"] ∧
      stC7d.additions = [("e", [Cell.fnV 2])] ∧
      (emit tblC7 40 stC7d "e" []).2 = Res.ok true ∧
      (emit tblC7 40 stC7d "e" []).1.additions = [("e", [Cell.fnV 2])] ∧
      regList (emit tblC7 40 stC7d "e" []).1 "e" = [some (Cell.fnV 3)] ∧
      (emit tblC7 40 stC7d "e" []).1.emitting = ["e"]) := by
  refine ⟨?_, ?_, ?_, ?_, by decide⟩
  · intro tbl fuel st st' ev args e htr hloop
    simp only [emitLoop] at hloop
    simp only [emit, exec, htr, if_true]
    rw [hloop]
  · intro tbl fuel st ev c h
    simp [onPub, exec, h]
  · intro tbl fuel st ev f h
    simp [removePub, exec, h]
  · intro tbl fuel st c ev h
    exact (exec_emitting_extends tbl fuel st c).subset h

/-- Witness for `c7_abort_skips_cleanup` at concrete inputs. -/
theorem c7_abort_skips_cleanup_witness :
    (truthyEv stC7a "e" = true ∧
      emit tblC7 40 stC7a "e" [] =
        ((emitLoop tblC7 39 (getRef (pushEm stC7a "e") "e").2 "e" []
            (getRef (pushEm stC7a "e") "e").1 0).1,
          Res.exn (Exc.user 7))) ∧
    ("e" ∈ stC7b.emitting ∧
      onPub tblC7 40 stC7b "e" (Cell.fnV 2) =
        (queueAdd stC7b "e" (Cell.fnV 2), Res.ok true) ∧
      removePub tblC7 40 stC7b "e" 3 =
        (queueRem stC7b "e" 3, Res.ok true) ∧
      "e" ∈ (exec tblC7 40 stC7d (Call.emitC "e" [])).1.emitting) :=
  ⟨⟨by decide,
      c7_abort_skips_cleanup.1 tblC7 39 stC7a
        (emitLoop tblC7 39 (getRef (pushEm stC7a "e") "e").2 "e" []
          (getRef (pushEm stC7a "e") "e").1 0).1 "e" [] (Exc.user 7)
        (by decide) (by decide)⟩,
    ⟨by decide,
      c7_abort_skips_cleanup.2.1 tblC7 39 stC7b "e" (Cell.fnV 2) (by decide),
      c7_abort_skips_cleanup.2.2.1 tblC7 39 stC7b "e" 3 (by decide),
      c7_abort_skips_cleanup.2.2.2.1 tblC7 40 stC7d (Call.emitC "e" []) "e"
        (by decide)⟩⟩

/-- The registry state with one listener `1` on `"e"`, used to witness the
truthy branch of `c5_emit_return_value`. -/
def stC5 : EState := (runScript tblNil 60 emptyState [Act.onA "e" 1]).1

/-- Witness for `c5_emit_return_value` at concrete inputs. -/
theorem c5_emit_return_value_witness :
    (truthyEv emptyState "evt" = false ∧
      emit tblNil 5 emptyState "evt" [] = (emptyState, Res.ok false)) ∧
    (truthyEv stC5 "e" = true ∧ true = true) :=
  ⟨⟨by decide, c5_emit_return_value.1 tblNil 4 emptyState "evt" [] (by decide)⟩,
    ⟨by decide,
      c5_emit_return_value.2 tblNil 60 stC5 "e" []
        (emit tblNil 60 stC5 "e" []).1 true (by decide) (by decide)⟩⟩

end AsyncEmitter
